import Mathlib

/-!
Shallow embedding of the wjdr character-sheet rule engine
(`src/wjdr/models/models.py` and `src/wjdr/models/random.py`).

Python ints constrained by pydantic to be non-negative are modelled as
`Nat`; unconstrained ints (career attribute targets, dice modifiers) as
`Int`.  Python dicts keyed by the closed attribute-name literals are
modelled as association lists over finite name types, preserving
insertion order; Python sets that the code only ever iterates, searches
and inserts into are modelled as lists.  Fallible constructors and
validators return `Except`/`Option`.
-/

namespace Wjdr

/-- The eight primary attribute names (`PrimaryAttributeName` literal). -/
inductive PrimName
  | fight_capacity
  | shooting_capacity
  | strength
  | toughness
  | agility
  | intelligence
  | mental_strength
  | sociability
deriving DecidableEq, Repr

/-- The four secondary attribute names (`SecondaryAttributeName` literal). -/
inductive SecName
  | attack
  | wounds
  | magic_point
  | movement
deriving DecidableEq, Repr

/-- Order of `get_args(PrimaryAttributeName)` in the source. -/
def allPrimNames : List PrimName :=
  [.fight_capacity, .shooting_capacity, .strength, .toughness,
   .agility, .intelligence, .mental_strength, .sociability]

/-- Order of `get_args(SecondaryAttributeName)` in the source. -/
def allSecNames : List SecName :=
  [.attack, .wounds, .magic_point, .movement]

/-- Talent and its subclass SpecializedTalent, as a tagged variant.
`permanent_bonus` is the optional `(attribute-name, amount)` pair. -/
inductive TalentV
  | base (name : String) (description : String)
      (permanent_bonus : Option (PrimName × Int))
  | spec (name : String) (description : String)
      (permanent_bonus : Option (PrimName × Int)) (specialization : String)
deriving DecidableEq, Repr

namespace TalentV

def name : TalentV → String
  | .base n _ _ => n
  | .spec n _ _ _ => n

def description : TalentV → String
  | .base _ d _ => d
  | .spec _ d _ _ => d

def permanent_bonus : TalentV → Option (PrimName × Int)
  | .base _ _ p => p
  | .spec _ _ p _ => p

/-- What Python's `getattr(t, "specialization", None)` observes. -/
def specialization? : TalentV → Option String
  | .base _ _ _ => none
  | .spec _ _ _ s => some s

/-- `Talent.__eq__` / `SpecializedTalent.__eq__`.  A plain Talent compares
name, description and permanent bonus of the other object; a specialized
one additionally requires the other's `specialization` attribute to equal
its own (a plain Talent has none, so that comparison is false). -/
def eq (a b : TalentV) : Bool :=
  match a with
  | .base n d p =>
      n == b.name && d == b.description && p == b.permanent_bonus
  | .spec n d p s =>
      some s == b.specialization? &&
        (n == b.name && d == b.description && p == b.permanent_bonus)

end TalentV

/-- Python list equality over talents: same length, pairwise
`Talent.__eq__` of the left element applied to the right one. -/
def talentsEq : List TalentV → List TalentV → Bool
  | [], [] => true
  | a :: as, b :: bs => a.eq b && talentsEq as bs
  | _, _ => false

/-- Skill and its subclass SpecializedSkill, as a tagged variant. -/
inductive SkillV
  | base (name : String) (basic : Bool) (description : String)
      (attr : PrimName) (talents : List TalentV)
  | spec (name : String) (basic : Bool) (description : String)
      (attr : PrimName) (talents : List TalentV) (specialization : String)
deriving DecidableEq, Repr

namespace SkillV

def name : SkillV → String
  | .base n _ _ _ _ => n
  | .spec n _ _ _ _ _ => n

def basic : SkillV → Bool
  | .base _ b _ _ _ => b
  | .spec _ b _ _ _ _ => b

def attr : SkillV → PrimName
  | .base _ _ _ a _ => a
  | .spec _ _ _ a _ _ => a

def talents : SkillV → List TalentV
  | .base _ _ _ _ ts => ts
  | .spec _ _ _ _ ts _ => ts

/-- What Python's `getattr(s, "specialization", None)` observes. -/
def specialization? : SkillV → Option String
  | .base _ _ _ _ _ => none
  | .spec _ _ _ _ _ s => some s

/-- `Skill.__eq__` / `SpecializedSkill.__eq__`.  A plain Skill compares
name, basic flag, attribute and talent list (never the description); a
specialized one additionally requires the other's `specialization`
attribute to equal its own, which a plain Skill lacks. -/
def eq (a b : SkillV) : Bool :=
  match a with
  | .base n bs _ attr ts =>
      n == b.name && bs == b.basic && attr == b.attr &&
        talentsEq ts b.talents
  | .spec n bs _ attr ts s =>
      some s == b.specialization? &&
        (n == b.name && bs == b.basic && attr == b.attr &&
          talentsEq ts b.talents)

end SkillV

/-- CharacterSkill: a skill plus a per-character bonus
(pydantic: `ge=0`, `le=20`, `multiple_of=10`). -/
structure CharacterSkill where
  skill : SkillV
  bonus : Nat
deriving DecidableEq, Repr

/-- Money: three non-negative denominations (pydantic `ge=0`). -/
structure Money where
  golden_crown : Nat
  silver_pistol : Nat
  copper_coins : Nat
deriving DecidableEq, Repr

namespace Money

/-- `Money.coerce_money`: carry copper into silver (12:1), then silver
into gold (20:1), exactly as the Python static method computes it. -/
def coerce_money (golden_crown silver_pistol copper_coins : Nat) :
    Nat × Nat × Nat :=
  let silver_pistol := silver_pistol + copper_coins / 12
  let copper_coins := copper_coins % 12
  let golden_crown := golden_crown + silver_pistol / 20
  let silver_pistol := silver_pistol % 20
  (golden_crown, silver_pistol, copper_coins)

/-- `Money.validate_money`: the after-model validator run by pydantic at
construction and on every field mutation; it stores the coerced triple. -/
def validate_money (golden_crown silver_pistol copper_coins : Nat) : Money :=
  let t := coerce_money golden_crown silver_pistol copper_coins
  ⟨t.1, t.2.1, t.2.2⟩

/-- Total value in copper-equivalent units, as used by `Money.__sub__`. -/
def value (m : Money) : Nat :=
  m.golden_crown * 240 + m.silver_pistol * 12 + m.copper_coins

/-- `Money.__sub__`: converts both sides to copper, fails on negative
result (`NegativeBalance`), otherwise rebuilds the three denominations
from the remainder and constructs (hence re-validates) a `Money`. -/
def sub (a b : Money) : Option Money :=
  let total_cc_self := a.value
  let total_cc_other := b.value
  if total_cc_self < total_cc_other then
    none
  else
    let total_cc_result := total_cc_self - total_cc_other
    some (validate_money (total_cc_result / 240)
      ((total_cc_result % 240) / 12) (total_cc_result % 12))

end Money

/-- Source spelling of each primary attribute name. -/
def PrimName.str : PrimName → String
  | .fight_capacity => "fight_capacity"
  | .shooting_capacity => "shooting_capacity"
  | .strength => "strength"
  | .toughness => "toughness"
  | .agility => "agility"
  | .intelligence => "intelligence"
  | .mental_strength => "mental_strength"
  | .sociability => "sociability"

/-- Source spelling of each secondary attribute name. -/
def SecName.str : SecName → String
  | .attack => "attack"
  | .wounds => "wounds"
  | .magic_point => "magic_point"
  | .movement => "movement"

/-- A skill or talent slot of a career: either a single reference or a
tuple of alternatives; either way it is one slot. -/
inductive Slot
  | single (s : String)
  | oneOf (ss : List String)
deriving DecidableEq, Repr

/-- Career.  The attribute maps are `dict[...Name, int]`, modelled as
insertion-ordered association lists with `Int` values (the targets carry
no pydantic range constraint).  The descriptive fields `description`,
`endowments`, `money` and `accessible_careers` play no part in the
validator or the experience formula and are omitted. -/
structure Career where
  name : String
  basic : Bool
  primary_attributes : List (PrimName × Int)
  secondary_attributes : List (SecName × Int)
  skills : List Slot
  talents : List Slot
deriving DecidableEq, Repr

namespace Career

/-- `Career.validated_career_plan`: the after-model validator; `true`
means construction succeeds, `false` that it raises
`IncompleteCareerPlan` because one of the 8 primary or 4 secondary keys
is absent from the respective map. -/
def validated_career_plan (c : Career) : Bool :=
  (allPrimNames.all fun n => (c.primary_attributes.lookup n).isSome) &&
    (allSecNames.all fun n => (c.secondary_attributes.lookup n).isSome)

/-- `Career.career_experience_amount`: primary targets contribute
`value // 5 * 100` each (Python floor division), secondary targets
`value * 100` each, and non-basic careers additionally pay 100 per skill
slot and 100 per talent slot. -/
def career_experience_amount (c : Career) : Int :=
  let experience :=
    (c.primary_attributes.map fun p => Int.fdiv p.2 5 * 100).sum
  let experience :=
    experience + (c.secondary_attributes.map fun p => p.2 * 100).sum
  if !c.basic then
    experience + (c.skills.length : Int) * 100 + (c.talents.length : Int) * 100
  else
    experience

end Career

/-- PrimaryAttribute: base plus experience-purchased advanced increment
(pydantic: both `ge=0`, `le=100`, advanced `multiple_of=5`). -/
structure PrimaryAttribute where
  base : Nat
  advanced : Nat
deriving DecidableEq, Repr

/-- SecondaryAttribute: base plus advanced, both non-negative. -/
structure SecondaryAttribute where
  base : Nat
  advanced : Nat
deriving DecidableEq, Repr

/-- Validation failures of `Character.validate_character`, tagged by the
raising branch and the offending attribute name. -/
inductive VErr
  | invalidProgression (attr : String)
  | firstCareerCeiling (attr : String)
  | currentCareerCeiling (attr : String)
deriving DecidableEq, Repr

/-- Character: the aggregate root.  Descriptive fields (detailed/meta
information, madness and destiny points, inventory, experience) play no
part in the claims' operations and are omitted; the skill and talent
sets are modelled as lists (the code only iterates, searches and
inserts). -/
structure Character where
  name : String
  gender : String
  race : String
  primary_attributes : PrimName → PrimaryAttribute
  secondary_attributes : SecName → SecondaryAttribute
  skills : List CharacterSkill
  talents : List TalentV
  carrers : List Career

namespace Character

/-- Uncareered loop over primary attributes: any nonzero `advanced`
raises (in `get_args` order). -/
def checkZeroPrim (pa : PrimName → PrimaryAttribute) :
    List PrimName → Except VErr Unit
  | [] => .ok ()
  | n :: rest =>
    if (pa n).advanced ≠ 0 then .error (.invalidProgression n.str)
    else checkZeroPrim pa rest

/-- Uncareered loop over secondary attributes. -/
def checkZeroSec (sa : SecName → SecondaryAttribute) :
    List SecName → Except VErr Unit
  | [] => .ok ()
  | n :: rest =>
    if (sa n).advanced ≠ 0 then .error (.invalidProgression n.str)
    else checkZeroSec sa rest

/-- Career-ceiling loop over a career's primary attribute map
(in dict insertion order): `advanced > max_value` raises. -/
def checkCareerPrim (pa : PrimName → PrimaryAttribute)
    (mk : String → VErr) : List (PrimName × Int) → Except VErr Unit
  | [] => .ok ()
  | (n, max_value) :: rest =>
    if ((pa n).advanced : Int) > max_value then .error (mk n.str)
    else checkCareerPrim pa mk rest

/-- Career-ceiling loop over a career's secondary attribute map. -/
def checkCareerSec (sa : SecName → SecondaryAttribute)
    (mk : String → VErr) : List (SecName × Int) → Except VErr Unit
  | [] => .ok ()
  | (n, max_value) :: rest =>
    if ((sa n).advanced : Int) > max_value then .error (mk n.str)
    else checkCareerSec sa mk rest

/-- `Character.validate_character`: with no career every `advanced` must
be 0; with at least one career the FIRST career's targets cap every
`advanced`; with more than one career the last (current) career's
targets are additionally checked. -/
def validate_character (c : Character) : Except VErr Unit := do
  if c.carrers.isEmpty then
    checkZeroPrim c.primary_attributes allPrimNames
    checkZeroSec c.secondary_attributes allSecNames
  match c.carrers with
  | [] => pure ()
  | first_career :: rest => do
    checkCareerPrim c.primary_attributes VErr.firstCareerCeiling
      first_career.primary_attributes
    checkCareerSec c.secondary_attributes VErr.firstCareerCeiling
      first_career.secondary_attributes
    match rest.getLast? with
    | some current_career => do
      checkCareerPrim c.primary_attributes VErr.currentCareerCeiling
        current_career.primary_attributes
      checkCareerSec c.secondary_attributes VErr.currentCareerCeiling
        current_career.secondary_attributes
    | none => pure ()

/-- `Character._get_existing_skill`: first stored entry whose underlying
skill compares equal (by `Skill.__eq__` of the stored side) to the
candidate's. -/
def _get_existing_skill (skills : List CharacterSkill)
    (character_skill : CharacterSkill) : Option CharacterSkill :=
  skills.find? fun s => s.skill.eq character_skill.skill

/-- In-place mutation `existing_skill.bonus = min(bonus + 10, 20)` of
the first matching entry. -/
def bumpFirst (sk : SkillV) : List CharacterSkill → List CharacterSkill
  | [] => []
  | s :: rest =>
    if s.skill.eq sk then { s with bonus := min (s.bonus + 10) 20 } :: rest
    else s :: bumpFirst sk rest

/-- `Character.add_skill`: bump the existing entry's bonus by 10 capped
at 20 when a matching skill is stored, otherwise insert the new one. -/
def add_skill (c : Character) (new_skill : CharacterSkill) : Character :=
  match _get_existing_skill c.skills new_skill with
  | some _ => { c with skills := bumpFirst new_skill.skill c.skills }
  | none => { c with skills := c.skills ++ [new_skill] }

end Character

/-- Value of a nonempty run of decimal digits, as Python's `int`. -/
def digitsToNat (ds : List Char) : Nat :=
  ds.foldl (fun acc c => acc * 10 + (c.toNat - 48)) 0

/-- Left-to-right scan of `re.finditer(r'(\\d+)d(\\d+)', s)` together with
`re.sub` of the same pattern by the empty string: returns the list of
`(n_dice, n_face)` matches in order and the unmatched characters.  Both
`\\d+` groups are maximal digit runs (backtracking can never shorten
them here), and after a failed attempt the scan restarts one character
later.  The fuel argument only bounds the recursion: every step
consumes at least one character, so fuel equal to the input length
(as `scanDice` passes it) is never exhausted. -/
def scanDiceAux : Nat → List Char → List (Nat × Nat) × List Char
  | 0, rest => ([], rest)
  | _ + 1, [] => ([], [])
  | fuel + 1, c :: cs =>
    let d1 := (c :: cs).takeWhile Char.isDigit
    if d1.isEmpty then
      let s := scanDiceAux fuel cs
      (s.1, c :: s.2)
    else
      match (c :: cs).dropWhile Char.isDigit with
      | 'd' :: r2 =>
        let d2 := r2.takeWhile Char.isDigit
        if d2.isEmpty then
          let s := scanDiceAux fuel cs
          (s.1, c :: s.2)
        else
          let s := scanDiceAux fuel (r2.dropWhile Char.isDigit)
          ((digitsToNat d1, digitsToNat d2) :: s.1, s.2)
      | _ =>
        let s := scanDiceAux fuel cs
        (s.1, c :: s.2)

/-- The dice-term scan of the whole character list. -/
def scanDice (l : List Char) : List (Nat × Nat) × List Char :=
  scanDiceAux l.length l

/-- Python's `str.replace` for a two-character pattern replaced by one
character: left to right, non-overlapping, replacements not rescanned. -/
def replacePair (a b c : Char) : List Char → List Char
  | [] => []
  | [x] => [x]
  | x :: y :: rest =>
    if x = a ∧ y = b then c :: replacePair a b c rest
    else x :: replacePair a b c (y :: rest)

/-- Left-to-right scan of `re.findall(r'([+-]\\d+)', rest)`, each match
converted by Python's `int` (so a leading `-` negates).  Fuel as in
`scanDiceAux`. -/
def findModsAux : Nat → List Char → List Int
  | 0, _ => []
  | _ + 1, [] => []
  | fuel + 1, c :: cs =>
    if c = '+' ∨ c = '-' then
      let ds := cs.takeWhile Char.isDigit
      if ds.isEmpty then findModsAux fuel cs
      else
        ((if c = '-' then -(digitsToNat ds : Int) else (digitsToNat ds : Int))
          :: findModsAux fuel (cs.dropWhile Char.isDigit))
    else findModsAux fuel cs

/-- The signed-modifier scan of the whole character list. -/
def findMods (l : List Char) : List Int :=
  findModsAux l.length l

/-- `dices[n_face] = dices.get(n_face, 0) + n_dice` on an
insertion-ordered dict modelled as an association list. -/
def updateDices (dices : List (Nat × Nat)) (n_face n_dice : Nat) :
    List (Nat × Nat) :=
  if dices.any fun p => p.1 == n_face then
    dices.map fun p => if p.1 == n_face then (p.1, p.2 + n_dice) else p
  else
    dices ++ [(n_face, n_dice)]

/-- DicePool: an insertion-ordered multiset of `face → count` entries
plus a flat modifier. -/
structure DicePool where
  dices : List (Nat × Nat)
  modifier : Int
deriving DecidableEq, Repr

namespace DicePool

/-- `DicePool.from_string`: collect all `NdM` terms (same face counts
accumulate), fail when none is found, then collapse repeated signs in
the unmatched rest (`++`→`+`, `--`→`+`, `+-`→`-`, `-+`→`-`), strip
spaces, and sum all signed integer modifiers found there. -/
def from_string (pool_str : String) : Except String DicePool :=
  let scanned := scanDice pool_str.data
  let dices := scanned.1.foldl (fun acc m => updateDices acc m.2 m.1) []
  if dices.isEmpty then
    .error "Invalid dice pool string"
  else
    let rest := replacePair '+' '+' '+' scanned.2
    let rest := replacePair '-' '-' '+' rest
    let rest := replacePair '+' '-' '-' rest
    let rest := replacePair '-' '+' '-' rest
    let rest := rest.filter fun ch => ch ≠ ' '
    let modifier := (findMods rest).sum
    .ok ⟨dices, modifier⟩

/-- One admissible outcome of Python's
`sample(range(1, n_face + 1), n_dice)`: `n_dice` distinct values, each
between 1 and `n_face`. -/
def validDraw (entry : Nat × Nat) (vs : List Nat) : Bool :=
  vs.length == entry.2 && decide vs.Nodup &&
    vs.all fun v => 1 ≤ v && v ≤ entry.1

/-- `DicePool.roll` with the sampler's choices made explicit: given one
drawn value list per dice entry, the roll is the sum of all drawn
values plus the modifier. -/
def roll_outcome (pool : DicePool) (draws : List (List Nat)) : Int :=
  (draws.map fun vs => (vs.sum : Int)).sum + pool.modifier

end DicePool

/-- A complete career plan whose every attribute target is 0. -/
def careerZero : Career :=
  ⟨"Zero", true, allPrimNames.map (fun n => (n, 0)),
    allSecNames.map (fun n => (n, 0)), [], []⟩

/-- A complete career plan whose every attribute target is 10. -/
def careerTen : Career :=
  ⟨"Ten", true, allPrimNames.map (fun n => (n, 10)),
    allSecNames.map (fun n => (n, 10)), [], []⟩

/-- A character with two applied careers (`careerZero` then `careerTen`)
whose only nonzero advanced component is `strength.advanced = 5`: within
the current career's targets, above the first career's. -/
def charFirstVsCurrent : Character :=
  ⟨"Test", "Masculin", "Humain",
    fun n => if n = .strength then ⟨10, 5⟩ else ⟨10, 0⟩,
    fun _ => ⟨0, 0⟩, [], [], [careerZero, careerTen]⟩

/-- The plain skill used by the add-skill counterexample. -/
def skillEsquive : SkillV :=
  .base "Esquive" false "Permet d'esquiver" .agility []

/-- A skill-less, career-less character. -/
def charBlank : Character :=
  ⟨"Blank", "Masculin", "Humain", fun _ => ⟨10, 0⟩, fun _ => ⟨0, 0⟩,
    [], [], []⟩

end Wjdr

open Wjdr

/-! ## Theorems -/

/-- Re-validating an already-normalized triple of the shape produced by
`Money.__sub__` changes nothing. -/
theorem Money.validate_money_of_sub_shape (rem : Nat) :
    Money.validate_money (rem / 240) (rem % 240 / 12) (rem % 12)
      = ⟨rem / 240, rem % 240 / 12, rem % 12⟩ := by
  simp only [Money.validate_money, Money.coerce_money, Money.mk.injEq]
  refine ⟨?_, ?_, ?_⟩ <;> omega

/-- C2: for all non-negative inputs, Money normalization (run at
construction and on every field mutation via `validate_money`) yields
`copper_coins < 12` and `silver_pistol < 20` and preserves the total
copper-equivalent value `gold*240 + silver*12 + copper`. -/
theorem money_normalization_C2 (gc sp cc : Nat) :
    (Money.validate_money gc sp cc).copper_coins < 12 ∧
    (Money.validate_money gc sp cc).silver_pistol < 20 ∧
    (Money.validate_money gc sp cc).value = gc * 240 + sp * 12 + cc := by
  simp only [Money.validate_money, Money.coerce_money, Money.value]
  omega

/-- C3: `subtract(a,b)` fails with `NegativeBalance` exactly when
`value a < value b`; otherwise it returns the difference re-expressed
from the copper remainder `rem` as `gold = rem/240`,
`silver = (rem%240)/12`, `copper = rem%12`; and `subtract(a,a)` is zero. -/
theorem money_sub_C3 (a b : Money) :
    (a.sub b = none ↔ a.value < b.value) ∧
    (b.value ≤ a.value →
      a.sub b = some ⟨(a.value - b.value) / 240,
        ((a.value - b.value) % 240) / 12, (a.value - b.value) % 12⟩) ∧
    a.sub a = some ⟨0, 0, 0⟩ := by
  refine ⟨?_, ?_, ?_⟩
  · simp only [Money.sub]
    split <;> simp_all
  · intro h
    simp only [Money.sub, if_neg (by omega : ¬ a.value < b.value)]
    rw [Money.validate_money_of_sub_shape]
  · simp only [Money.sub, if_neg (lt_irrefl a.value)]
    rw [Nat.sub_self]
    rw [Money.validate_money_of_sub_shape]

/-- Witness for C3 at concrete values: `a = (1,2,3)`, `b = (0,1,1)`. -/
theorem money_sub_C3_witness :
    ((Money.mk 1 2 3).sub ⟨0, 1, 1⟩ = none ↔
      (Money.mk 1 2 3).value < (Money.mk 0 1 1).value) ∧
    ((Money.mk 0 1 1).value ≤ (Money.mk 1 2 3).value →
      (Money.mk 1 2 3).sub ⟨0, 1, 1⟩ =
        some ⟨((Money.mk 1 2 3).value - (Money.mk 0 1 1).value) / 240,
          (((Money.mk 1 2 3).value - (Money.mk 0 1 1).value) % 240) / 12,
          ((Money.mk 1 2 3).value - (Money.mk 0 1 1).value) % 12⟩) ∧
    (Money.mk 1 2 3).sub ⟨1, 2, 3⟩ = some ⟨0, 0, 0⟩ :=
  money_sub_C3 ⟨1, 2, 3⟩ ⟨0, 1, 1⟩

/-- Talent equality is reflexive. -/
theorem talentEq_refl (a : TalentV) : a.eq a = true := by
  cases a <;>
    simp [TalentV.eq, TalentV.name, TalentV.description,
      TalentV.permanent_bonus, TalentV.specialization?]

/-- Talent-list equality is reflexive. -/
theorem talentsEq_refl (ts : List TalentV) : talentsEq ts ts = true := by
  induction ts with
  | nil => rfl
  | cons a rest ih => simp [talentsEq, talentEq_refl, ih]

/-- Skill equality is reflexive. -/
theorem skillEq_refl (a : SkillV) : a.eq a = true := by
  cases a <;>
    simp [SkillV.eq, SkillV.name, SkillV.basic, SkillV.attr,
      SkillV.talents, SkillV.specialization?, talentsEq_refl]

/-- C10: value equality between the two skill variants is asymmetric:
a plain Skill compares equal to a SpecializedSkill whose name, basic
flag, attribute and talent list match (Skill.`__eq__` ignores the
specialization), while the SpecializedSkill compares unequal to the
plain Skill (its `__eq__` requires a matching `specialization`
attribute, which the plain Skill lacks). -/
theorem skill_eq_asymmetric_C10 (name : String) (basic : Bool)
    (d1 d2 : String) (attr : PrimName) (ts : List TalentV) (sp : String) :
    (SkillV.base name basic d1 attr ts).eq
      (SkillV.spec name basic d2 attr ts sp) = true ∧
    (SkillV.spec name basic d2 attr ts sp).eq
      (SkillV.base name basic d1 attr ts) = false := by
  constructor <;>
    simp [SkillV.eq, SkillV.name, SkillV.basic, SkillV.attr,
      SkillV.talents, SkillV.specialization?, talentsEq_refl]

/-- C8: parsing `"2d6+1d4+2"` yields the dice entries `{6:2, 4:1}` with
modifier 2; same-face terms accumulate (`"2d6+1d6"` yields `{6:3}`);
and a string with no valid `NdM` term (`"abc"`) fails with
`InvalidExpression`. -/
theorem dice_from_string_C8 :
    DicePool.from_string "2d6+1d4+2" = .ok ⟨[(6, 2), (4, 1)], 2⟩ ∧
    DicePool.from_string "2d6+1d6" = .ok ⟨[(6, 3)], 0⟩ ∧
    DicePool.from_string "abc" = .error "Invalid dice pool string" :=
  ⟨by rfl, by rfl, by rfl⟩

/-- C6: the experience amount of a career is the sum over primary
targets of `target // 5 * 100`, plus the sum over secondary targets of
`target * 100`, plus, for non-basic careers only, 100 per skill slot
and 100 per talent slot (an alternatives tuple is one slot); basic
careers add no skill/talent contribution. -/
theorem career_experience_C6 (c : Career) :
    c.career_experience_amount =
      (c.primary_attributes.map fun p => Int.fdiv p.2 5 * 100).sum +
      (c.secondary_attributes.map fun p => p.2 * 100).sum +
      (if c.basic then 0
       else 100 * ((c.skills.length : Int) + (c.talents.length : Int))) := by
  simp only [Career.career_experience_amount]
  cases hb : c.basic
  · simp
    ring
  · simp

/-- Every primary name is listed in `allPrimNames`. -/
theorem mem_allPrimNames (n : PrimName) : n ∈ allPrimNames := by
  cases n <;> simp [allPrimNames]

/-- Every secondary name is listed in `allSecNames`. -/
theorem mem_allSecNames (n : SecName) : n ∈ allSecNames := by
  cases n <;> simp [allSecNames]

/-- C5: career construction fails with `IncompleteCareerPlan` exactly
when at least one of the 8 primary or 4 secondary attribute keys is
absent from the respective map; a present value, even 0, never fails. -/
theorem career_plan_C5 (c : Career) :
    c.validated_career_plan = false ↔
      (∃ n : PrimName, c.primary_attributes.lookup n = none) ∨
      (∃ n : SecName, c.secondary_attributes.lookup n = none) := by
  simp only [Career.validated_career_plan, Bool.and_eq_false_iff,
    List.all_eq_false, Option.not_isSome_iff_eq_none]
  constructor
  · rintro (⟨n, _, hn⟩ | ⟨n, _, hn⟩)
    · exact Or.inl ⟨n, hn⟩
    · exact Or.inr ⟨n, hn⟩
  · rintro (⟨n, hn⟩ | ⟨n, hn⟩)
    · exact Or.inl ⟨n, mem_allPrimNames n, hn⟩
    · exact Or.inr ⟨n, mem_allSecNames n, hn⟩

/-- Mapping the trivial function over a unit Except is the identity. -/
theorem except_map_unit (x : Except VErr Unit) :
    ((fun _ => ()) <$> x) = x := by
  cases x with
  | error e => rfl
  | ok u => cases u; rfl

/-- Sequencing two unit Except computations succeeds exactly when both
succeed. -/
theorem except_seq_ok (a b : Except VErr Unit) :
    (a >>= fun _ => b) = .ok () ↔ a = .ok () ∧ b = .ok () := by
  cases a with
  | error e => simp [Bind.bind, Except.bind]
  | ok u => cases u; simp [Bind.bind, Except.bind]

/-- The uncareered primary check succeeds exactly when every listed
attribute's advanced component is 0. -/
theorem checkZeroPrim_ok (pa : PrimName → PrimaryAttribute)
    (ns : List PrimName) :
    Character.checkZeroPrim pa ns = .ok () ↔
      ∀ n ∈ ns, (pa n).advanced = 0 := by
  induction ns with
  | nil => simp [Character.checkZeroPrim]
  | cons n rest ih =>
    simp only [Character.checkZeroPrim]
    by_cases h : (pa n).advanced ≠ 0
    · simp [h]
    · simp only [if_neg h]
      simp only [ne_eq, not_not] at h
      simp [ih, h]

/-- The uncareered secondary check succeeds exactly when every listed
attribute's advanced component is 0. -/
theorem checkZeroSec_ok (sa : SecName → SecondaryAttribute)
    (ns : List SecName) :
    Character.checkZeroSec sa ns = .ok () ↔
      ∀ n ∈ ns, (sa n).advanced = 0 := by
  induction ns with
  | nil => simp [Character.checkZeroSec]
  | cons n rest ih =>
    simp only [Character.checkZeroSec]
    by_cases h : (sa n).advanced ≠ 0
    · simp [h]
    · simp only [if_neg h]
      simp only [ne_eq, not_not] at h
      simp [ih, h]

/-- C7: a Character with no applied career validates exactly when every
primary and every secondary attribute's advanced component is 0; any
nonzero advanced value fails (`InvalidProgression`). -/
theorem uncareered_C7 (c : Character) (h : c.carrers = []) :
    c.validate_character = .ok () ↔
      (∀ n : PrimName, (c.primary_attributes n).advanced = 0) ∧
      (∀ n : SecName, (c.secondary_attributes n).advanced = 0) := by
  simp only [Character.validate_character, h, List.isEmpty_nil, if_true]
  simp only [bind_pure_comp, map_pure, bind_pure, except_map_unit]
  rw [except_seq_ok, checkZeroPrim_ok, checkZeroSec_ok]
  constructor
  · rintro ⟨h1, h2⟩
    exact ⟨fun n => h1 n (mem_allPrimNames n), fun n => h2 n (mem_allSecNames n)⟩
  · rintro ⟨h1, h2⟩
    exact ⟨fun n _ => h1 n, fun n _ => h2 n⟩

/-- Witness for C7: the blank character has no career and validates;
all its advanced components are 0. -/
theorem uncareered_C7_witness :
    charBlank.carrers = [] ∧
    (charBlank.validate_character = .ok () ↔
      (∀ n : PrimName, (charBlank.primary_attributes n).advanced = 0) ∧
      (∀ n : SecName, (charBlank.secondary_attributes n).advanced = 0)) :=
  ⟨rfl, uncareered_C7 charBlank rfl⟩

/-- C1 (code bug): `charFirstVsCurrent` has two applied careers and
every advanced component is within the current (most recently applied)
career's targets, yet `validate_character` rejects it — the ceiling of
the first career, `strength = 0`, is still enforced for multi-careered
characters (the `len(carrers) >= 1` branch), contradicting the
validator's own comment that with multiple careers only the current
career plan caps the advanced values. -/
theorem multi_career_first_ceiling_C1 :
    (∀ p ∈ careerTen.primary_attributes,
      ((charFirstVsCurrent.primary_attributes p.1).advanced : Int) ≤ p.2) ∧
    (∀ p ∈ careerTen.secondary_attributes,
      ((charFirstVsCurrent.secondary_attributes p.1).advanced : Int) ≤ p.2) ∧
    charFirstVsCurrent.carrers.getLast? = some careerTen ∧
    charFirstVsCurrent.validate_character =
      .error (.firstCareerCeiling "strength") :=
  ⟨by decide, by decide, by rfl, by rfl⟩

/-- C9: with dice `{6:2}` and modifier 3, every outcome in which the
roll draws 2 distinct values without replacement from 1..6 and adds the
modifier lies in the closed interval [5, 15]. -/
theorem dice_roll_C9 (draws : List (List Nat))
    (h : List.Forall₂ (fun e vs => DicePool.validDraw e vs = true)
      [(6, 2)] draws) :
    5 ≤ DicePool.roll_outcome ⟨[(6, 2)], 3⟩ draws ∧
    DicePool.roll_outcome ⟨[(6, 2)], 3⟩ draws ≤ 15 := by
  cases h with
  | cons hv hnil =>
    cases hnil
    rename_i vs
    simp only [DicePool.validDraw, Bool.and_eq_true, beq_iff_eq,
      decide_eq_true_eq, List.all_eq_true] at hv
    obtain ⟨⟨hlen, hnd⟩, hb⟩ := hv
    match vs, hlen with
    | [a, b], _ =>
      have hab : a ≠ b := by simp [List.nodup_cons] at hnd; exact hnd
      have ha := hb a (by simp)
      have hbb := hb b (by simp)
      simp only [decide_eq_true_eq] at ha hbb
      simp only [DicePool.roll_outcome, List.map_cons, List.map_nil,
        List.sum_cons, List.sum_nil]
      push_cast
      omega

/-- Witness for C9 at the concrete draw `[1, 2]`. -/
theorem dice_roll_C9_witness :
    List.Forall₂ (fun e vs => DicePool.validDraw e vs = true)
      [(6, 2)] [[1, 2]] ∧
    (5 ≤ DicePool.roll_outcome ⟨[(6, 2)], 3⟩ [[1, 2]] ∧
      DicePool.roll_outcome ⟨[(6, 2)], 3⟩ [[1, 2]] ≤ 15) :=
  ⟨.cons (by decide) .nil, dice_roll_C9 [[1, 2]] (.cons (by decide) .nil)⟩

/-- C4 counterexample: starting from a character with no stored skills,
adding the same CharacterSkill (given bonus 0) twice leaves exactly one
stored entry, but with bonus 10 — not 20 as claimed: the first call
inserts at the given bonus and only the second call bumps by 10. -/
theorem add_skill_twice_counterexample_C4 :
    ((charBlank.add_skill ⟨skillEsquive, 0⟩).add_skill
        ⟨skillEsquive, 0⟩).skills = [⟨skillEsquive, 10⟩] ∧
    ¬ (∀ s ∈ ((charBlank.add_skill ⟨skillEsquive, 0⟩).add_skill
        ⟨skillEsquive, 0⟩).skills, s.bonus = 20) :=
  ⟨by rfl, by decide⟩

/-- Bumping the first match preserves how many entries match. -/
theorem bumpFirst_countP (sk : SkillV) (l : List CharacterSkill) :
    (Character.bumpFirst sk l).countP (fun s => s.skill.eq sk) =
      l.countP (fun s => s.skill.eq sk) := by
  induction l with
  | nil => rfl
  | cons a rest ih =>
    by_cases h : a.skill.eq sk = true
    · simp [Character.bumpFirst, h, List.countP_cons]
    · simp [Character.bumpFirst, h, List.countP_cons, ih]

/-- Bumping the first match preserves the number of entries. -/
theorem bumpFirst_length (sk : SkillV) (l : List CharacterSkill) :
    (Character.bumpFirst sk l).length = l.length := by
  induction l with
  | nil => rfl
  | cons a rest ih =>
    by_cases h : a.skill.eq sk = true
    · simp [Character.bumpFirst, h]
    · simp [Character.bumpFirst, h, ih]

/-- With no matching entry, bumping is the identity. -/
theorem bumpFirst_of_countP_zero (sk : SkillV) (l : List CharacterSkill)
    (h : l.countP (fun s => s.skill.eq sk) = 0) :
    Character.bumpFirst sk l = l := by
  induction l with
  | nil => rfl
  | cons a rest ih =>
    simp only [List.countP_cons] at h
    have ha : a.skill.eq sk = false := by
      by_cases hc : a.skill.eq sk = true
      · simp [hc] at h
      · simpa using hc
    have hrest : rest.countP (fun s => s.skill.eq sk) = 0 := by
      omega
    simp [Character.bumpFirst, ha, ih hrest]

/-- When at most one entry matches, every match in the bumped list
comes from a match of the original list with its bonus bumped by 10 and
capped at 20. -/
theorem bumpFirst_mem (sk : SkillV) (l : List CharacterSkill)
    (h : l.countP (fun s => s.skill.eq sk) ≤ 1) :
    ∀ s ∈ Character.bumpFirst sk l, s.skill.eq sk = true →
      ∃ s0 ∈ l, s0.skill.eq sk = true ∧
        s.bonus = min (s0.bonus + 10) 20 := by
  induction l with
  | nil => intro s hs; simp [Character.bumpFirst] at hs
  | cons a rest ih =>
    intro s hs hP
    by_cases ha : a.skill.eq sk = true
    · have hzero : rest.countP (fun s => s.skill.eq sk) = 0 := by
        simp only [List.countP_cons, ha, if_pos] at h
        omega
      simp only [Character.bumpFirst, if_pos ha] at hs
      rcases List.mem_cons.mp hs with h1 | h1
      · subst h1
        exact ⟨a, List.mem_cons_self a rest, ha, rfl⟩
      · exfalso
        have := List.countP_eq_zero.mp hzero s h1
        simp [hP] at this
    · simp only [Character.bumpFirst, if_neg ha] at hs
      rcases List.mem_cons.mp hs with h1 | h1
      · subst h1
        simp [hP] at ha
      · have hrest : rest.countP (fun s => s.skill.eq sk) ≤ 1 := by
          simp only [List.countP_cons, ha] at h
          simpa using h
        obtain ⟨s0, hs0, hPs0, hb⟩ := ih hrest s h1 hP
        exact ⟨s0, List.mem_cons_of_mem a hs0, hPs0, hb⟩

/-- When at most one entry matches, any two matches are the same value. -/
theorem countP_le_one_unique (sk : SkillV) (l : List CharacterSkill)
    (h : l.countP (fun s => s.skill.eq sk) ≤ 1) :
    ∀ a ∈ l, a.skill.eq sk = true → ∀ b ∈ l, b.skill.eq sk = true →
      a = b := by
  induction l with
  | nil => intro a ha; simp at ha
  | cons x rest ih =>
    intro a ha hPa b hb hPb
    by_cases hx : x.skill.eq sk = true
    · have hzero : rest.countP (fun s => s.skill.eq sk) = 0 := by
        simp only [List.countP_cons, hx, if_pos] at h
        omega
      have hmem : ∀ y ∈ rest, y.skill.eq sk = true → False := by
        intro y hy hPy
        have := List.countP_eq_zero.mp hzero y hy
        simp [hPy] at this
      rcases List.mem_cons.mp ha with h1 | h1
      · rcases List.mem_cons.mp hb with h2 | h2
        · rw [h1, h2]
        · exact absurd hPb (by intro hc; exact hmem b h2 hc)
      · exact absurd hPa (by intro hc; exact hmem a h1 hc)
    · have hrest : rest.countP (fun s => s.skill.eq sk) ≤ 1 := by
        simp only [List.countP_cons, hx] at h
        simpa using h
      rcases List.mem_cons.mp ha with h1 | h1
      · exact absurd hPa (h1 ▸ fun hc => hx hc)
      · rcases List.mem_cons.mp hb with h2 | h2
        · exact absurd hPb (h2 ▸ fun hc => hx hc)
        · exact ih hrest a h1 hPa b h2 hPb

/-- When every matching entry already sits at the 20 cap, bumping
changes nothing. -/
theorem bumpFirst_at_cap (sk : SkillV) (l : List CharacterSkill)
    (h : ∀ s ∈ l, s.skill.eq sk = true → s.bonus = 20) :
    Character.bumpFirst sk l = l := by
  induction l with
  | nil => rfl
  | cons a rest ih =>
    by_cases ha : a.skill.eq sk = true
    · have h20 : a.bonus = 20 := h a (List.mem_cons_self a rest) ha
      simp only [Character.bumpFirst, if_pos ha]
      congr 1
      cases a
      simp_all
    · simp only [Character.bumpFirst, if_neg ha]
      rw [ih fun s hs => h s (List.mem_cons_of_mem a hs)]

/-- When no stored entry matches, `add_skill` appends the new
CharacterSkill with its given bonus. -/
theorem add_skill_of_countP_zero (c : Character) (cs : CharacterSkill)
    (h : c.skills.countP (fun s => s.skill.eq cs.skill) = 0) :
    (c.add_skill cs).skills = c.skills ++ [cs] := by
  have hf : c.skills.find? (fun s => s.skill.eq cs.skill) = none :=
    List.find?_eq_none.mpr fun x hx => by
      have := List.countP_eq_zero.mp h x hx
      simpa using this
  simp [Character.add_skill, Character._get_existing_skill, hf]

/-- When some stored entry matches, `add_skill` bumps the first match. -/
theorem add_skill_of_countP_pos (c : Character) (cs : CharacterSkill)
    (h : 0 < c.skills.countP (fun s => s.skill.eq cs.skill)) :
    (c.add_skill cs).skills = Character.bumpFirst cs.skill c.skills := by
  obtain ⟨x, hx, hPx⟩ := List.countP_pos_iff.mp h
  have hf : (c.skills.find? (fun s => s.skill.eq cs.skill)).isSome :=
    List.find?_isSome.mpr ⟨x, hx, hPx⟩
  obtain ⟨y, hy⟩ := Option.isSome_iff_exists.mp hf
  simp [Character.add_skill, Character._get_existing_skill, hy]

/-- `add_skill` only rewrites the skills field. -/
theorem add_skill_eta (x : Character) (cs : CharacterSkill) :
    x.add_skill cs = { x with skills := (x.add_skill cs).skills } := by
  unfold Character.add_skill
  cases hf : Character._get_existing_skill x.skills cs <;> rfl

/-- C4 (amended): for a Character storing at most one entry whose
underlying skill equals the given one, adding the same CharacterSkill
twice yields exactly one matching stored entry (never two); its bonus
is `min(given bonus + 10, 20)` when none pre-existed — 20 exactly when
the given bonus is at least 10 — and 20 when one pre-existed; the bonus
never exceeds 20 (so never 30); a single call inserts the new entry
with its given bonus when none matches, bumps the matching entry's
bonus by 10 capped at 20 when one does, and at the cap a further
addition is a no-op. -/
theorem add_skill_amended_C4 (c : Character) (cs : CharacterSkill)
    (h : c.skills.countP (fun s => s.skill.eq cs.skill) ≤ 1) :
    ((c.add_skill cs).add_skill cs).skills.countP
        (fun s => s.skill.eq cs.skill) = 1 ∧
    ((c.add_skill cs).add_skill cs).skills.length = c.skills.length +
      (if c.skills.countP (fun s => s.skill.eq cs.skill) = 0
        then 1 else 0) ∧
    (∀ s ∈ ((c.add_skill cs).add_skill cs).skills,
      s.skill.eq cs.skill = true →
        s.bonus = if c.skills.countP (fun s => s.skill.eq cs.skill) = 0
          then min (cs.bonus + 10) 20 else 20) ∧
    (∀ s ∈ ((c.add_skill cs).add_skill cs).skills,
      s.skill.eq cs.skill = true → s.bonus ≤ 20) ∧
    (c.skills.countP (fun s => s.skill.eq cs.skill) = 0 →
      (c.add_skill cs).skills = c.skills ++ [cs]) ∧
    (∀ s0 ∈ c.skills, s0.skill.eq cs.skill = true →
      ∀ s ∈ (c.add_skill cs).skills, s.skill.eq cs.skill = true →
        s.bonus = min (s0.bonus + 10) 20) ∧
    ((∀ s ∈ ((c.add_skill cs).add_skill cs).skills,
        s.skill.eq cs.skill = true → s.bonus = 20) →
      ((c.add_skill cs).add_skill cs).add_skill cs =
        (c.add_skill cs).add_skill cs) := by
  have hcs : cs.skill.eq cs.skill = true := skillEq_refl _
  by_cases h0 : c.skills.countP (fun s => s.skill.eq cs.skill) = 0
  · -- no pre-existing match: first call appends, second bumps it to
    -- min (cs.bonus + 10) 20
    have e1 : (c.add_skill cs).skills = c.skills ++ [cs] :=
      add_skill_of_countP_zero c cs h0
    have hcount1 : (c.add_skill cs).skills.countP
        (fun s => s.skill.eq cs.skill) = 1 := by
      rw [e1, List.countP_append, h0]
      simp [List.countP_cons, hcs]
    have e2 : ((c.add_skill cs).add_skill cs).skills =
        Character.bumpFirst cs.skill (c.add_skill cs).skills :=
      add_skill_of_countP_pos _ cs (by omega)
    have hcount2 : ((c.add_skill cs).add_skill cs).skills.countP
        (fun s => s.skill.eq cs.skill) = 1 := by
      rw [e2, bumpFirst_countP, hcount1]
    have key3 : ∀ s ∈ ((c.add_skill cs).add_skill cs).skills,
        s.skill.eq cs.skill = true →
          s.bonus = min (cs.bonus + 10) 20 := by
      intro s hs hP
      rw [e2] at hs
      obtain ⟨s0, hs0, hPs0, hb⟩ :=
        bumpFirst_mem cs.skill (c.add_skill cs).skills
          (by omega) s hs hP
      have hcsmem : cs ∈ (c.add_skill cs).skills := by
        rw [e1]; exact List.mem_append_right _ (List.mem_singleton.mpr rfl)
      have : s0 = cs :=
        countP_le_one_unique cs.skill (c.add_skill cs).skills
          (by omega) s0 hs0 hPs0 cs hcsmem hcs
      rw [hb, this]
    refine ⟨hcount2, ?_, ?_, ?_, fun _ => e1, ?_, ?_⟩
    · rw [e2, bumpFirst_length, e1]
      simp [h0]
    · intro s hs hP
      simp only [h0, if_true, if_pos]
      exact key3 s hs hP
    · intro s hs hP
      have := key3 s hs hP
      omega
    · intro s0 hs0 hPs0
      exfalso
      have := List.countP_eq_zero.mp h0 s0 hs0
      simp [hPs0] at this
    · intro hcap
      have hskills : (((c.add_skill cs).add_skill cs).add_skill cs).skills
          = ((c.add_skill cs).add_skill cs).skills := by
        rw [add_skill_of_countP_pos _ cs (by omega),
          bumpFirst_at_cap _ _ hcap]
      rw [add_skill_eta (((c.add_skill cs)).add_skill cs) cs, hskills]
  · -- a pre-existing match: both calls bump it, landing exactly on 20
    have hpos : 0 < c.skills.countP (fun s => s.skill.eq cs.skill) := by
      omega
    have e1 : (c.add_skill cs).skills =
        Character.bumpFirst cs.skill c.skills :=
      add_skill_of_countP_pos c cs hpos
    have hcount1 : (c.add_skill cs).skills.countP
        (fun s => s.skill.eq cs.skill) = 1 := by
      rw [e1, bumpFirst_countP]
      omega
    have e2 : ((c.add_skill cs).add_skill cs).skills =
        Character.bumpFirst cs.skill (c.add_skill cs).skills :=
      add_skill_of_countP_pos _ cs (by omega)
    have hcount2 : ((c.add_skill cs).add_skill cs).skills.countP
        (fun s => s.skill.eq cs.skill) = 1 := by
      rw [e2, bumpFirst_countP, hcount1]
    have key3 : ∀ s ∈ ((c.add_skill cs).add_skill cs).skills,
        s.skill.eq cs.skill = true → s.bonus = 20 := by
      intro s hs hP
      rw [e2] at hs
      obtain ⟨s1, hs1, hPs1, hb1⟩ :=
        bumpFirst_mem cs.skill (c.add_skill cs).skills
          (by omega) s hs hP
      rw [e1] at hs1
      obtain ⟨s0, _, _, hb0⟩ :=
        bumpFirst_mem cs.skill c.skills h s1 hs1 hPs1
      rw [hb1, hb0]
      omega
    refine ⟨hcount2, ?_, ?_, ?_, fun hz => absurd hz h0, ?_, ?_⟩
    · rw [e2, bumpFirst_length, e1, bumpFirst_length]
      simp [h0]
    · intro s hs hP
      simp only [h0, if_false, if_neg]
      exact key3 s hs hP
    · intro s hs hP
      have := key3 s hs hP
      omega
    · intro s0 hs0 hPs0 s hs hP
      rw [e1] at hs
      obtain ⟨s0', hs0', hPs0', hb⟩ :=
        bumpFirst_mem cs.skill c.skills h s hs hP
      have : s0' = s0 :=
        countP_le_one_unique cs.skill c.skills h s0' hs0' hPs0' s0 hs0 hPs0
      rw [hb, this]
    · intro hcap
      have hskills : (((c.add_skill cs).add_skill cs).add_skill cs).skills
          = ((c.add_skill cs).add_skill cs).skills := by
        rw [add_skill_of_countP_pos _ cs (by omega),
          bumpFirst_at_cap _ _ hcap]
      rw [add_skill_eta (((c.add_skill cs)).add_skill cs) cs, hskills]

/-- Witness for C4 at the blank character and given bonus 10. -/
theorem add_skill_amended_C4_witness :
    charBlank.skills.countP
      (fun s => s.skill.eq (CharacterSkill.mk skillEsquive 10).skill) ≤ 1 ∧
    (((charBlank.add_skill ⟨skillEsquive, 10⟩).add_skill
        ⟨skillEsquive, 10⟩).skills.countP
        (fun s => s.skill.eq (CharacterSkill.mk skillEsquive 10).skill) = 1 ∧
    ((charBlank.add_skill ⟨skillEsquive, 10⟩).add_skill
        ⟨skillEsquive, 10⟩).skills.length = charBlank.skills.length +
      (if charBlank.skills.countP
          (fun s => s.skill.eq (CharacterSkill.mk skillEsquive 10).skill) = 0
        then 1 else 0) ∧
    (∀ s ∈ ((charBlank.add_skill ⟨skillEsquive, 10⟩).add_skill
        ⟨skillEsquive, 10⟩).skills,
      s.skill.eq (CharacterSkill.mk skillEsquive 10).skill = true →
        s.bonus = if charBlank.skills.countP
            (fun s => s.skill.eq (CharacterSkill.mk skillEsquive 10).skill) = 0
          then min ((CharacterSkill.mk skillEsquive 10).bonus + 10) 20
          else 20) ∧
    (∀ s ∈ ((charBlank.add_skill ⟨skillEsquive, 10⟩).add_skill
        ⟨skillEsquive, 10⟩).skills,
      s.skill.eq (CharacterSkill.mk skillEsquive 10).skill = true →
        s.bonus ≤ 20) ∧
    (charBlank.skills.countP
        (fun s => s.skill.eq (CharacterSkill.mk skillEsquive 10).skill) = 0 →
      (charBlank.add_skill ⟨skillEsquive, 10⟩).skills =
        charBlank.skills ++ [⟨skillEsquive, 10⟩]) ∧
    (∀ s0 ∈ charBlank.skills,
      s0.skill.eq (CharacterSkill.mk skillEsquive 10).skill = true →
      ∀ s ∈ (charBlank.add_skill ⟨skillEsquive, 10⟩).skills,
        s.skill.eq (CharacterSkill.mk skillEsquive 10).skill = true →
          s.bonus = min (s0.bonus + 10) 20) ∧
    ((∀ s ∈ ((charBlank.add_skill ⟨skillEsquive, 10⟩).add_skill
        ⟨skillEsquive, 10⟩).skills,
      s.skill.eq (CharacterSkill.mk skillEsquive 10).skill = true →
        s.bonus = 20) →
      ((charBlank.add_skill ⟨skillEsquive, 10⟩).add_skill
          ⟨skillEsquive, 10⟩).add_skill ⟨skillEsquive, 10⟩ =
        (charBlank.add_skill ⟨skillEsquive, 10⟩).add_skill
          ⟨skillEsquive, 10⟩)) :=
  ⟨by decide, add_skill_amended_C4 charBlank ⟨skillEsquive, 10⟩ (by decide)⟩
